import Mathlib

/-!
Verification development for the Animesaturn HLS/MP4 proxy (`src/main.py`).

The Python handler `proxy_stream` is shallowly embedded: strings are Lean
`String`s (whose `data` field is `List Char`), the shared `httpx` client is an
explicit environment mapping (method, url, headers) to an upstream result, and
the FastAPI responses are records of status, content type, headers and body.
Library routines the source calls (`str.strip`, `str.replace`, `re.search`,
`urllib.parse.urljoin`, `urllib.parse.unquote`, `str.splitlines`) are modelled
faithfully for the ASCII inputs the proxy handles.
-/

set_option maxRecDepth 4000

/-- Whitespace characters stripped by Python `str.strip()` (ASCII subset). -/
def isPySpace (c : Char) : Bool :=
  c = ' ' || c = '\t' || c = '\n' || c = '\r' || c = '\x0b' || c = '\x0c'

/-- List-level model of Python `str.strip()`. -/
def pyStripL (l : List Char) : List Char :=
  ((l.dropWhile isPySpace).reverse.dropWhile isPySpace).reverse

/-- Model of Python `str.strip()` on strings. -/
def pyStrip (s : String) : String := ⟨pyStripL s.data⟩

/-- ASCII lower-casing of one character, as Python `str.lower()` does on ASCII. -/
def lowerChar (c : Char) : Char :=
  if 'A' ≤ c ∧ c ≤ 'Z' then Char.ofNat (c.toNat + 32) else c

/-- Model of Python `str.lower()` (ASCII subset). -/
def strToLower (s : String) : String := ⟨s.data.map lowerChar⟩

/-- Model of Python `str.startswith(p)`: `strStartsWith p s` is true when `p`
is a prefix of `s`. -/
def strStartsWith (p s : String) : Bool := p.data.isPrefixOf s.data

/-- Model of Python `str.endswith(p)`. -/
def strEndsWith (p s : String) : Bool := p.data.isSuffixOf s.data

/-- Substring containment at the list level (Python `p in s`). -/
def containsSubL (pat : List Char) : List Char → Bool
  | [] => pat.isPrefixOf []
  | c :: t => pat.isPrefixOf (c :: t) || containsSubL pat t

/-- Model of the Python containment test `pat in s`. -/
def containsSub (pat s : String) : Bool := containsSubL pat.data s.data

/-- Fuel-indexed engine for Python `str.replace`: scans left to right and
replaces every non-overlapping occurrence of `pat` by `rep`.  One unit of fuel
is spent per step; `fuel = length of the list` always suffices because each
step consumes at least one character. -/
def replaceFuel (pat rep : List Char) : Nat → List Char → List Char
  | _, [] => []
  | 0, l => l
  | fuel + 1, c :: t =>
    if pat ≠ [] ∧ pat.isPrefixOf (c :: t) then
      rep ++ replaceFuel pat rep fuel ((c :: t).drop pat.length)
    else
      c :: replaceFuel pat rep fuel t

/-- Replace every occurrence of `pat` by `rep` in `l` (Python `str.replace`). -/
def replaceAllL (pat rep l : List Char) : List Char :=
  replaceFuel pat rep l.length l

/-- Model of Python `s.replace(pat, rep)`. -/
def pyReplace (s pat rep : String) : String := ⟨replaceAllL pat.data rep.data s.data⟩

/-- Value of a hexadecimal digit, if `c` is one. -/
def hexDigit (c : Char) : Option Nat :=
  if '0' ≤ c ∧ c ≤ '9' then some (c.toNat - 48)
  else if 'a' ≤ c ∧ c ≤ 'f' then some (c.toNat - 87)
  else if 'A' ≤ c ∧ c ≤ 'F' then some (c.toNat - 55)
  else none

/-- List-level model of Python `urllib.parse.unquote`: a `%` followed by two
hex digits decodes to that byte; an invalid escape is kept literally.  (Python
additionally UTF-8-decodes multi-byte runs; the proxy only ever sees ASCII
URLs, on which the two agree.) -/
def pyUnquoteL : List Char → List Char
  | [] => []
  | '%' :: h1 :: h2 :: t =>
    match hexDigit h1, hexDigit h2 with
    | some a, some b => Char.ofNat (16 * a + b) :: pyUnquoteL t
    | _, _ => '%' :: pyUnquoteL (h1 :: h2 :: t)
  | c :: t => c :: pyUnquoteL t

/-- Model of Python `urllib.parse.unquote` on strings. -/
def pyUnquote (s : String) : String := ⟨pyUnquoteL s.data⟩

/-- Model of Python `str.splitlines()` (accumulator holds the current line
reversed).  Recognises `\n`, `\r\n` and `\r`; no trailing empty line. -/
def pySplitAux (cur : List Char) : List Char → List (List Char)
  | [] => if cur = [] then [] else [cur.reverse]
  | '\r' :: '\n' :: t => cur.reverse :: pySplitAux [] t
  | '\n' :: t => cur.reverse :: pySplitAux [] t
  | '\r' :: t => cur.reverse :: pySplitAux [] t
  | c :: t => pySplitAux (c :: cur) t

/-- Model of Python `str.splitlines()` on strings. -/
def pySplitlines (s : String) : List String :=
  (pySplitAux [] s.data).map (fun l => ⟨l⟩)

/-- Join a list of strings with a separator (Python `sep.join(list)`). -/
def strIntercalate (sep : String) : List String → String
  | [] => ""
  | [x] => x
  | x :: y :: t => x ++ sep ++ strIntercalate sep (y :: t)

/-! ## `urllib.parse.urljoin`

The proxy resolves every relative manifest reference with `urljoin`; the
definitions below model CPython's `urlsplit`/`urljoin`/`urlunsplit` for the
schemes the proxy meets (no `;`-params handling, which http URLs do not use).
-/

/-- Split a list at the first occurrence of `c`, if any. -/
def splitAtChar (c : Char) : List Char → Option (List Char × List Char)
  | [] => none
  | x :: t =>
    if x = c then some ([], t)
    else (splitAtChar c t).map (fun p => (x :: p.1, p.2))

/-- Characters allowed in a URL scheme after the first (CPython `scheme_chars`). -/
def isSchemeChar (c : Char) : Bool :=
  ('a' ≤ c && c ≤ 'z') || ('A' ≤ c && c ≤ 'Z') || ('0' ≤ c && c ≤ '9')
    || c = '+' || c = '-' || c = '.'

/-- ASCII letter test (CPython requires the first scheme character to be one). -/
def isAlphaAscii (c : Char) : Bool := ('a' ≤ c && c ≤ 'z') || ('A' ≤ c && c ≤ 'Z')

/-- Detach a leading `scheme:` if the text before the first `:` is a valid
scheme, lower-casing it, as CPython's `urlsplit` does. -/
def parseSchemeSplit (l : List Char) : Option (List Char × List Char) :=
  match splitAtChar ':' l with
  | none => none
  | some (before, after) =>
    if ((match before with | c :: _ => isAlphaAscii c | [] => false)
        && before.all isSchemeChar) then
      some (before.map lowerChar, after)
    else none

/-- Detach a leading `//netloc` (authority runs to the next `/`, `?` or `#`). -/
def splitNetloc (l : List Char) : List Char × List Char :=
  match l with
  | '/' :: '/' :: t =>
    (t.takeWhile (fun c => c ≠ '/' && c ≠ '?' && c ≠ '#'),
     t.dropWhile (fun c => c ≠ '/' && c ≠ '?' && c ≠ '#'))
  | _ => ([], l)

/-- Parsed URL components, as CPython's `urlsplit` produces them. -/
structure PyURL where
  scheme : String
  netloc : String
  path : String
  query : String
  fragment : String
deriving DecidableEq

/-- Model of CPython `urlsplit(url, default_scheme)`: scheme, then `//netloc`,
then fragment, then query. -/
def pyUrlparse (url : String) (defaultScheme : String) : PyURL :=
  let l := url.data
  let sr := match parseSchemeSplit l with
    | some (s, r) => (s, r)
    | none => (defaultScheme.data, l)
  let nr := splitNetloc sr.2
  let rf := match splitAtChar '#' nr.2 with
    | some (a, b) => (a, b)
    | none => (nr.2, [])
  let pq := match splitAtChar '?' rf.1 with
    | some (a, b) => (a, b)
    | none => (rf.1, [])
  ⟨⟨sr.1⟩, ⟨nr.1⟩, ⟨pq.1⟩, ⟨pq.2⟩, ⟨rf.2⟩⟩

/-- Model of CPython `urlunsplit`. -/
def pyUrlunparse (u : PyURL) : String :=
  let url := u.path
  let url :=
    if u.netloc ≠ "" ∨ strStartsWith "//" url then
      "//" ++ u.netloc ++ (if url ≠ "" ∧ ¬ strStartsWith "/" url then "/" ++ url else url)
    else url
  let url := if u.scheme ≠ "" then u.scheme ++ ":" ++ url else url
  let url := if u.query ≠ "" then url ++ "?" ++ u.query else url
  if u.fragment ≠ "" then url ++ "#" ++ u.fragment else url

/-- Schemes for which CPython `urljoin` performs relative resolution. -/
def usesRelative : List String :=
  ["", "ftp", "http", "gopher", "nntp", "imap", "wais", "file", "https",
   "shttp", "mms", "prospero", "rtsp", "rtspu", "sftp", "svn", "svn+ssh",
   "ws", "wss"]

/-- Schemes that carry a network location in CPython `urljoin`. -/
def usesNetloc : List String :=
  ["", "ftp", "http", "gopher", "nntp", "telnet", "imap", "wais", "file",
   "mms", "https", "shttp", "snews", "prospero", "rtsp", "rtspu", "rsync",
   "svn", "svn+ssh", "sftp", "nfs", "git", "git+ssh", "ws", "wss"]

/-- Split a char list on a separator character (Python `str.split(sep)`). -/
def splitCharAll (c : Char) : List Char → List (List Char)
  | [] => [[]]
  | x :: t =>
    if x = c then [] :: splitCharAll c t
    else
      match splitCharAll c t with
      | s :: rest => (x :: s) :: rest
      | [] => [[x]]

/-- Split a string path on `/`. -/
def splitSlash (s : String) : List String :=
  (splitCharAll '/' s.data).map (fun l => ⟨l⟩)

/-- CPython `urljoin`'s `segments[1:-1] = filter(None, segments[1:-1])`: drop
empty segments except in first and last position. -/
def filterMiddle (l : List String) : List String :=
  match l with
  | [] => []
  | [x] => [x]
  | x :: rest =>
    match rest.getLast? with
    | some y => x :: (rest.dropLast.filter (fun s => s ≠ "")) ++ [y]
    | none => [x]

/-- Path-merging tail of CPython `urljoin`, entered once scheme/netloc have
been resolved (`netloc` is the already-chosen authority). -/
def urljoinRest (B U : PyURL) (netloc : String) : String :=
  if U.path = "" then
    pyUrlunparse ⟨U.scheme, netloc, B.path,
      (if U.query = "" then B.query else U.query), U.fragment⟩
  else
    let baseParts := splitSlash B.path
    let baseParts := if baseParts.getLast? ≠ some "" then baseParts.dropLast else baseParts
    let segments :=
      if strStartsWith "/" U.path then splitSlash U.path
      else filterMiddle (baseParts ++ splitSlash U.path)
    let resolved := segments.foldl
      (fun acc seg =>
        if seg = ".." then acc.dropLast
        else if seg = "." then acc
        else acc ++ [seg]) ([] : List String)
    let resolved :=
      if segments.getLast? = some ".." ∨ segments.getLast? = some "." then
        resolved ++ [""]
      else resolved
    let p := strIntercalate "/" resolved
    pyUrlunparse ⟨U.scheme, netloc, (if p = "" then "/" else p), U.query, U.fragment⟩

/-- Model of CPython `urllib.parse.urljoin(base, url)`. -/
def urljoin (base url : String) : String :=
  if url = "" then base
  else if base = "" then url
  else
    let B := pyUrlparse base ""
    let U := pyUrlparse url B.scheme
    if U.scheme = B.scheme ∧ usesRelative.contains U.scheme then
      if usesNetloc.contains U.scheme then
        if U.netloc ≠ "" then pyUrlunparse U
        else urljoinRest B U B.netloc
      else urljoinRest B U U.netloc
    else url

/-! ## The playlist rewriter (`proxy_stream`, playlist branch) -/

/-- The proxy-callback URL built for a resolved reference:
`f"/proxy?url={urljoin(origin_base, ref)}"` in the source. -/
def callback (base ref : String) : String := "/proxy?url=" ++ urljoin base ref

/-- One attempt of the regex `URI="([^"]+)"` anchored at the head of `l`:
matches `URI="`, then a non-empty run of non-quote characters, then `"`. -/
def uriMatchAt (l : List Char) : Option (List Char) :=
  match l with
  | 'U' :: 'R' :: 'I' :: '=' :: '"' :: rest =>
    let v := rest.takeWhile (fun c => c ≠ '"')
    if v ≠ [] ∧ rest.drop v.length ≠ [] then some v else none
  | _ => none

/-- Leftmost match of `URI="([^"]+)"`, as `re.search` finds it. -/
def findURIAux : List Char → Option (List Char)
  | [] => none
  | c :: t =>
    match uriMatchAt (c :: t) with
    | some v => some v
    | none => findURIAux t

/-- Captured group of the leftmost `URI="([^"]+)"` match in `s`, if any. -/
def findURICapture (s : String) : Option String :=
  (findURIAux s.data).map (fun l => ⟨l⟩)

/-- The `URI="..."` branch of the rewriter: extract the first capture, resolve
it, and `str.replace` every occurrence of it in the line by the callback
(`line.replace(uri, f"/proxy?url={abs_uri}")` in the source). -/
def attrRewrite (base l : String) : String :=
  match findURICapture l with
  | some uri => pyReplace l uri (callback base uri)
  | none => l

/-- One step of the rewriter's line classification on an already-stripped,
non-blank line `s`, given the `skip_next` flag; returns the emitted line and
the new flag.  Mirrors the `for line in body.splitlines()` body of the source
after the blank-line `continue`. -/
def lineStep (base : String) (skip : Bool) (s : String) : String × Bool :=
  if strStartsWith "#EXT-X-STREAM-INF" s then (s, true)
  else if skip then (callback base s, false)
  else if (!strStartsWith "#" s) && (!strStartsWith "http" (strToLower s)) then
    (callback base s, false)
  else if containsSub "URI=\"" s then (attrRewrite base s, false)
  else (s, false)

/-- The rewriter's loop over manifest lines: strip each line, elide blanks,
and apply `lineStep` threading the `skip_next` flag. -/
def rewriteLines (base : String) : Bool → List String → List String
  | _, [] => []
  | skip, l :: rest =>
    let s := pyStrip l
    if s = "" then rewriteLines base skip rest
    else
      let os := lineStep base skip s
      os.1 :: rewriteLines base os.2 rest

/-- `origin_base = origin_url.rsplit("/", 1)[0] + "/"`: everything through the
last `/`, or the whole URL plus `/` when it has no slash. -/
def originBase (u : String) : String :=
  let r := (u.data.reverse).dropWhile (fun c => c ≠ '/')
  if r = [] then ⟨u.data ++ ['/']⟩ else ⟨r.reverse⟩

/-- Whole-manifest rewrite: split into lines, rewrite, join with newlines. -/
def rewriteManifest (base body : String) : String :=
  strIntercalate "\n" (rewriteLines base false (pySplitlines body))

/-- A manifest line that is neither blank nor `#`-prefixed (the spec's
non-comment lines: media references and variant URIs). -/
def nonComment (l : String) : Bool := (l != "") && !(strStartsWith "#" l)

/-- A line the spec counts as URI-bearing: a non-comment line (bare media
reference or variant URI) or a line containing the `URI="` attribute pattern. -/
def uriBearing (l : String) : Bool := nonComment l || containsSub "URI=\"" l

/-! ## The HTTP handler (`proxy_stream`, dispatcher and relay branches)

The shared `httpx` client is abstracted as an environment: a map from
(method, url, request headers) to either an upstream response or an exception
(`Except.error ()`).  The streamed body is modelled as the full byte string
delivered by the streaming GET; a streaming-time exception yields an empty
body (the generator swallows it and terminates).
-/

/-- HTTP method of an upstream call made by the handler. -/
inductive Method where
  | GET
  | HEAD
deriving DecidableEq

/-- The upstream-response data the handler reads: status, the headers it
consults (absent = `none`; a header may be present but empty), and the body. -/
structure UpstreamResp where
  status : Nat
  contentType : Option String := none
  contentLength : Option String := none
  contentRange : Option String := none
  acceptRanges : Option String := none
  body : String := ""
deriving DecidableEq

/-- The upstream world: every `client.get` / `client.head` / `client.stream`
call the handler makes, as a function of method, url and request headers. -/
structure Env where
  fetch : Method → String → List (String × String) → Except Unit UpstreamResp

/-- The client-visible response: status, effective content type, the headers
set by the handler itself, and the (possibly streamed) body. -/
structure ClientResp where
  status : Nat
  contentType : Option String
  headers : List (String × String)
  body : String
deriving DecidableEq

instance : DecidableEq (Except Unit UpstreamResp) := fun a b =>
  match a, b with
  | .ok x, .ok y =>
    if h : x = y then isTrue (by rw [h]) else isFalse (fun hh => by cases hh; exact h rfl)
  | .ok _, .error _ => isFalse (fun hh => by cases hh)
  | .error _, .ok _ => isFalse (fun hh => by cases hh)
  | .error x, .error y => isTrue (by cases x; cases y; rfl)

/-- The fixed spoofed request headers (`VIDEO_HEADERS` in the source). -/
def VIDEO_HEADERS : List (String × String) :=
  [("User-Agent", "Mozilla/5.0 (Linux; Android 10) AppleWebKit/537.36 (KHTML, like Gecko) Chrome/137.0.0.0 Mobile Safari/537.36"),
   ("Referer", "https://www.animesaturn.cx/watch?file=xNIuYkLOOfAwo&server=0")]

/-- Outbound headers for the streaming GET: the spoofed pair plus the client's
`Range` header when present and non-empty (`if range_header:` in the source). -/
def withRange (rangeHeader : Option String) : List (String × String) :=
  match rangeHeader with
  | some r => if r = "" then VIDEO_HEADERS else VIDEO_HEADERS ++ [("Range", r)]
  | none => VIDEO_HEADERS

/-- Response to `GET /proxy` without a usable `url` parameter. -/
def missingURLResp : ClientResp :=
  { status := 400, contentType := some "text/plain", headers := [],
    body := "Missing 'url' query parameter" }

/-- An `HTTPException(status_code=502, detail=...)` as the client sees it. -/
def http502 (detail : String) : ClientResp :=
  { status := 502, contentType := none, headers := [], body := detail }

/-- `make_cors_headers()` without extras. -/
def corsHeaders : List (String × String) := [("Access-Control-Allow-Origin", "*")]

/-- Raw `/uwu.m3u8` bypass response built from the upstream reply. -/
def uwuResp (r : UpstreamResp) : ClientResp :=
  { status := r.status,
    contentType := some (r.contentType.getD "application/vnd.apple.mpegurl"),
    headers := corsHeaders ++ [("Cache-Control", "no-cache")],
    body := r.body }

/-- Playlist branch: upstream returned an error status (≥ 400), forwarded
as-is with its body and content type (default `text/plain`). -/
def m3u8ErrResp (r : UpstreamResp) : ClientResp :=
  { status := r.status,
    contentType := some (r.contentType.getD "text/plain"),
    headers := corsHeaders,
    body := r.body }

/-- Playlist branch: successful fetch, rewritten manifest. -/
def m3u8OkResp (u : String) (r : UpstreamResp) : ClientResp :=
  { status := 200,
    contentType := some "application/vnd.apple.mpegurl",
    headers := corsHeaders ++ [("Cache-Control", "no-cache")],
    body := rewriteManifest (originBase u) r.body }

/-- The probe determining the relay's client-visible status and headers: a
HEAD with the spoofed headers; if it raises or reports status ≥ 400, a GET
with the spoofed headers.  Neither carries the client's `Range`. -/
def probeResult (env : Env) (u : String) : Except Unit UpstreamResp :=
  match env.fetch .HEAD u VIDEO_HEADERS with
  | .ok h => if 400 ≤ h.status then env.fetch .GET u VIDEO_HEADERS else .ok h
  | .error _ => env.fetch .GET u VIDEO_HEADERS

/-- The relay's response headers: built from the probe, then every header
whose value is absent or empty is dropped
(`{k: v for k, v in response_headers.items() if v}` in the source). -/
def relayHeaders (ct : String) (p : UpstreamResp) : List (String × String) :=
  ([("Content-Type", some ct),
    ("Content-Length", p.contentLength),
    ("Content-Range", p.contentRange),
    ("Accept-Ranges", some (p.acceptRanges.getD "bytes")),
    ("Access-Control-Allow-Origin", some "*")]).filterMap
    (fun kv =>
      match kv.2 with
      | none => none
      | some v => if v = "" then none else some (kv.1, v))

/-- Bytes the streaming generator delivers: the body of the streaming GET
(carrying the client's `Range`), or nothing if that call raises. -/
def relayBody (env : Env) (u : String) (hdrs : List (String × String)) : String :=
  match env.fetch .GET u hdrs with
  | .ok r => r.body
  | .error _ => ""

/-- The relay (non-`.m3u8`) branch of `proxy_stream`. -/
def relayResponse (env : Env) (u : String) (rangeHeader : Option String) : ClientResp :=
  match probeResult env u with
  | .error _ => http502 "Upstream stream probe failed"
  | .ok p =>
    let ct := if strEndsWith ".ts" (strToLower u) then "video/MP2T"
              else p.contentType.getD "video/mp4"
    { status := if p.status = 0 then 200 else p.status,
      contentType := some ct,
      headers := relayHeaders ct p,
      body := relayBody env u (withRange rangeHeader) }

/-- The `GET /proxy` handler `proxy_stream`: missing/empty `url` → 400;
decode once; `/uwu.m3u8` raw bypass; `.m3u8` → playlist rewrite; otherwise
the streaming relay. -/
def proxyStream (env : Env) (urlParam : Option String) (rangeHeader : Option String) :
    ClientResp :=
  match urlParam with
  | none => missingURLResp
  | some raw =>
    if raw = "" then missingURLResp
    else
      let u := pyUnquote raw
      if strEndsWith "/uwu.m3u8" u then
        match env.fetch .GET u VIDEO_HEADERS with
        | .error _ => http502 "Upstream fetch failed"
        | .ok r => uwuResp r
      else if strEndsWith ".m3u8" (strToLower u) then
        match env.fetch .GET u VIDEO_HEADERS with
        | .error _ => http502 "Upstream playlist fetch failed"
        | .ok r => if 400 ≤ r.status then m3u8ErrResp r else m3u8OkResp u r
      else relayResponse env u rangeHeader

/-! ## Predicates and fixtures used by the claims -/

/-- Flag discipline of a manifest: no stripped comment line ever sits in
variant position (immediately after a `#EXT-X-STREAM-INF` directive, blank
lines skipped).  Mirrors the rewriter's own flag threading. -/
def variantOk (skip : Bool) : List String → Bool
  | [] => true
  | l :: rest =>
    let s := pyStrip l
    if s = "" then variantOk skip rest
    else if strStartsWith "#EXT-X-STREAM-INF" s then variantOk true rest
    else if skip then !(strStartsWith "#" s) && variantOk false rest
    else variantOk false rest

/-- The `URI="..."` capture of a line, when there is one, contains no `#`
(true of every URI-valued attribute, where `#` would start a fragment that
the quoted value may not carry into another attribute). -/
def attrCaptureOk (l : String) : Bool :=
  match findURICapture (pyStrip l) with
  | some uri => uri.data.all (fun c => c != '#')
  | none => true

/-- A bare absolute http(s) URI: scheme prefix (case-insensitive, per the
source's `line.lower().startswith("http")` family of checks) and no raw `"`
character, which RFC 3986 forbids in a URI. -/
def isAbsHttpURI (l : String) : Bool :=
  (strStartsWith "http://" (strToLower l) || strStartsWith "https://" (strToLower l))
    && l.data.all (fun c => c != '"')

/-- Origin reply to the Range-less probes in the C1 scenario: a plain 200
with the full length, no `Content-Range`. -/
def c1HeadResp : UpstreamResp :=
  { status := 200, contentType := some "video/mp4", contentLength := some "5000",
    acceptRanges := some "bytes", body := "" }

/-- Origin reply to the ranged streaming GET in the C1 scenario. -/
def c1RangedResp : UpstreamResp :=
  { status := 206, contentType := some "video/mp4", contentLength := some "1000",
    contentRange := some "bytes 1000-1999/5000", acceptRanges := some "bytes",
    body := "RANGEDBYTES" }

/-- An HTTP-conformant origin: answers 206 with `Content-Range` exactly when
the request carries the `Range: bytes=1000-1999` header, 200 otherwise. -/
def envC1 : Env :=
  ⟨fun m _ hs =>
    match m with
    | .HEAD => .ok c1HeadResp
    | .GET =>
      if hs = withRange (some "bytes=1000-1999") then .ok c1RangedResp
      else .ok c1HeadResp⟩

/-- Upstream probe reply claiming a non-video content type. -/
def tsProbeResp : UpstreamResp := { status := 200, contentType := some "text/plain", body := "TS" }

/-- Environment whose origin always reports `text/plain`. -/
def envTs : Env := ⟨fun _ _ _ => .ok tsProbeResp⟩

/-- Upstream probe reply with no content type at all. -/
def mp4ProbeResp : UpstreamResp := { status := 200, contentType := none, body := "MP4" }

/-- Environment whose origin reports no content type. -/
def envMp4 : Env := ⟨fun _ _ _ => .ok mp4ProbeResp⟩

/-- Upstream playlist fetch answering 404 with an HTML body. -/
def pl404Resp : UpstreamResp := { status := 404, contentType := some "text/html", body := "nf" }

/-- Environment whose origin answers every request with the 404 above. -/
def envPl404 : Env := ⟨fun _ _ _ => .ok pl404Resp⟩

/-- Probe reply exercising every header case of C8: `Content-Length` present,
`Content-Range` present but empty, `Accept-Ranges` absent. -/
def c8Probe : UpstreamResp :=
  { status := 200, contentType := some "video/mp4", contentLength := some "5000",
    contentRange := some "", acceptRanges := none, body := "" }

/-- Environment serving the C8 probe reply to every request. -/
def envC8 : Env := ⟨fun _ _ _ => .ok c8Probe⟩

/-- Probe reply shared by the two C10 environments. -/
def c10Probe : UpstreamResp := { status := 200, contentType := some "video/mp4", body := "PROBE" }

/-- First ranged-GET reply for C10. -/
def c10RangedA : UpstreamResp := { status := 206, body := "AAA" }

/-- Second ranged-GET reply for C10, differing from the first. -/
def c10RangedB : UpstreamResp := { status := 206, body := "BBB" }

/-- C10 environment A: probes agree with environment B, the ranged GET differs. -/
def envC10A : Env :=
  ⟨fun m _ hs =>
    match m with
    | .HEAD => .ok c10Probe
    | .GET => if hs = withRange (some "bytes=0-1") then .ok c10RangedA else .ok c10Probe⟩

/-- C10 environment B: probes agree with environment A, the ranged GET differs. -/
def envC10B : Env :=
  ⟨fun m _ hs =>
    match m with
    | .HEAD => .ok c10Probe
    | .GET => if hs = withRange (some "bytes=0-1") then .ok c10RangedB else .ok c10Probe⟩

/-! ## Basic lemmas about the string primitives -/

@[simp] theorem data_mk (l : List Char) : (String.mk l).data = l := rfl

theorem str_ext {a b : String} (h : a.data = b.data) : a = b := by
  cases a; cases b; exact congrArg String.mk h

theorem str_empty_iff (l : String) : l = "" ↔ l.data = [] := by
  constructor
  · intro h; rw [h]
  · intro h; exact str_ext h

theorem startsWith_head {p l : String} {c : Char} {pt : List Char}
    (hp : p.data = c :: pt) (h : strStartsWith p l = true) : ∃ t, l.data = c :: t := by
  unfold strStartsWith at h
  rw [List.isPrefixOf_iff_prefix, hp] at h
  cases hld : l.data with
  | nil => rw [hld] at h; simp at h
  | cons d t =>
    rw [hld] at h
    rw [List.cons_prefix_cons] at h
    exact ⟨t, congrArg (fun z => z :: t) h.1.symm⟩

theorem startsWith_hash_false {l : String} {c : Char} {t : List Char}
    (hld : l.data = c :: t) (hc : c ≠ '#') : strStartsWith "#" l = false := by
  unfold strStartsWith
  have hd : ("#" : String).data = ['#'] := rfl
  rw [hd, hld]
  simp only [List.isPrefixOf, List.isPrefixOf.eq_1, Bool.and_eq_false_iff]
  left
  exact beq_eq_false_iff_ne.mpr (Ne.symm hc)

theorem startsWith_hash_head {l : String} (h : strStartsWith "#" l = true) :
    ∃ t, l.data = '#' :: t :=
  startsWith_head rfl h

theorem head_ne_hash_of_startsWith_false {l : String} {c : Char} {t : List Char}
    (hld : l.data = c :: t) (h : strStartsWith "#" l = false) : c ≠ '#' := by
  intro hc
  rw [show strStartsWith "#" l = ('#' :: []).isPrefixOf l.data from rfl, hld, hc] at h
  simp [List.isPrefixOf] at h

theorem http_lower_head {l : String} (h : strStartsWith "http" (strToLower l) = true) :
    ∃ c t, l.data = c :: t ∧ lowerChar c = 'h' := by
  unfold strStartsWith strToLower at h
  rw [data_mk, List.isPrefixOf_iff_prefix] at h
  have hd : ("http" : String).data = 'h' :: ['t', 't', 'p'] := rfl
  rw [hd] at h
  cases hld : l.data with
  | nil => rw [hld] at h; simp at h
  | cons c t =>
    rw [hld] at h
    simp only [List.map_cons] at h
    rw [List.cons_prefix_cons] at h
    exact ⟨c, t, rfl, h.1.symm⟩

theorem http_not_hash {l : String} (h : strStartsWith "http" (strToLower l) = true) :
    strStartsWith "#" l = false := by
  obtain ⟨c, t, hld, hc⟩ := http_lower_head h
  refine startsWith_hash_false hld ?_
  intro hch
  rw [hch] at hc
  exact absurd hc (by decide)

theorem http_ne_empty {l : String} (h : strStartsWith "http" (strToLower l) = true) :
    l ≠ "" := by
  obtain ⟨c, t, hld, _⟩ := http_lower_head h
  intro hemp
  rw [(str_empty_iff l).mp hemp] at hld
  exact List.cons_ne_nil c t hld.symm

theorem http_not_inf {l : String} (h : strStartsWith "http" (strToLower l) = true) :
    strStartsWith "#EXT-X-STREAM-INF" l = false := by
  cases hsw : strStartsWith "#EXT-X-STREAM-INF" l with
  | false => rfl
  | true =>
    obtain ⟨t, hld⟩ := startsWith_head (p := "#EXT-X-STREAM-INF") rfl hsw
    obtain ⟨c, t', hld', hc⟩ := http_lower_head h
    rw [hld] at hld'
    have : c = '#' := (List.cons.injEq _ _ _ _ ▸ hld').1.symm
    rw [this] at hc
    exact absurd hc (by decide)

theorem startsWith_mono {p q l : String} (hpq : strStartsWith p q = true)
    (hql : strStartsWith q l = true) : strStartsWith p l = true := by
  unfold strStartsWith at *
  rw [List.isPrefixOf_iff_prefix] at *
  exact hpq.trans hql

theorem containsSubL_mem (pat : List Char) :
    ∀ l : List Char, containsSubL pat l = true → ∀ c ∈ pat, c ∈ l := by
  intro l
  induction l with
  | nil =>
    intro h c hc
    cases pat with
    | nil => simp at hc
    | cons a as => simp [containsSubL, List.isPrefixOf] at h
  | cons d t ih =>
    intro h c hc
    simp only [containsSubL, Bool.or_eq_true] at h
    rcases h with hp | ht
    · exact (List.isPrefixOf_iff_prefix.mp hp).subset hc
    · exact List.mem_cons_of_mem d (ih ht c hc)

theorem containsSubL_append (pat a b : List Char) :
    containsSubL pat (a ++ (pat ++ b)) = true := by
  induction a with
  | nil =>
    simp only [List.nil_append]
    cases hpb : pat ++ b with
    | nil =>
      have : pat = [] := (List.append_eq_nil.mp hpb).1
      rw [this]
      simp [containsSubL, List.isPrefixOf]
    | cons c t =>
      simp only [containsSubL, Bool.or_eq_true]
      left
      rw [List.isPrefixOf_iff_prefix, ← hpb]
      exact List.prefix_append pat b
  | cons x a' ih =>
    simp only [List.cons_append, containsSubL, Bool.or_eq_true]
    right
    exact ih

/-! ## Lemmas about the `str.replace` model -/

theorem replaceFuel_cons_pos (pat rep : List Char) (f : Nat) (c : Char) (t : List Char)
    (h1 : pat ≠ []) (h2 : pat.isPrefixOf (c :: t) = true) :
    replaceFuel pat rep (f + 1) (c :: t)
      = rep ++ replaceFuel pat rep f (List.drop pat.length (c :: t)) := by
  simp only [replaceFuel]
  rw [if_pos ⟨h1, h2⟩]

theorem replaceFuel_cons_neg (pat rep : List Char) (f : Nat) (c : Char) (t : List Char)
    (h : ¬ (pat ≠ [] ∧ pat.isPrefixOf (c :: t) = true)) :
    replaceFuel pat rep (f + 1) (c :: t) = c :: replaceFuel pat rep f t := by
  simp only [replaceFuel]
  rw [if_neg h]

theorem replaceFuel_no_occ (pat rep : List Char) :
    ∀ (fuel : Nat) (a : List Char), a.length ≤ fuel →
      (∀ j, pat.isPrefixOf (List.drop j a) = true → False) →
      replaceFuel pat rep fuel a = a := by
  intro fuel
  induction fuel with
  | zero =>
    intro a ha _
    cases a with
    | nil => rfl
    | cons c t => simp at ha
  | succ f ih =>
    intro a ha hocc
    cases a with
    | nil => rfl
    | cons c t =>
      have hnp : ¬ (pat ≠ [] ∧ pat.isPrefixOf (c :: t) = true) := by
        rintro ⟨_, hp⟩
        exact hocc 0 (by simpa using hp)
      rw [replaceFuel_cons_neg pat rep f c t hnp]
      have hlen : t.length ≤ f := by simpa using ha
      rw [ih t hlen (fun j hj => hocc (j + 1) (by simpa using hj))]

theorem no_occ_of_uniq (pat a : List Char) (hpat : pat ≠ [])
    (huniq : ∀ i, i ≤ (pat ++ a).length →
      pat.isPrefixOf (List.drop i (pat ++ a)) = true → i = 0) :
    ∀ j, pat.isPrefixOf (List.drop j a) = true → False := by
  intro j hj
  by_cases hja : j ≤ a.length
  · have h2 : pat.isPrefixOf (List.drop (pat.length + j) (pat ++ a)) = true := by
      rw [List.drop_append j]; exact hj
    have h3 := huniq (pat.length + j) (by simp [List.length_append]; omega) h2
    have h4 : pat.length = 0 := by omega
    exact hpat (List.length_eq_zero.mp h4)
  · rw [List.drop_eq_nil_of_le (by omega)] at hj
    cases pat with
    | nil => exact hpat rfl
    | cons p ps => simp [List.isPrefixOf] at hj

theorem replaceFuel_single (pat rep : List Char) (hpat : pat ≠ []) :
    ∀ (b : List Char) (fuel : Nat) (a : List Char),
      (b ++ (pat ++ a)).length ≤ fuel →
      (∀ i, i ≤ (b ++ (pat ++ a)).length →
        pat.isPrefixOf (List.drop i (b ++ (pat ++ a))) = true → i = b.length) →
      replaceFuel pat rep fuel (b ++ (pat ++ a)) = b ++ (rep ++ a) := by
  intro b
  induction b with
  | nil =>
    intro fuel a hfuel huniq
    rw [List.nil_append] at hfuel huniq ⊢
    cases pat with
    | nil => exact absurd rfl hpat
    | cons p ps =>
      cases fuel with
      | zero => simp at hfuel
      | succ f =>
        have hpre : (p :: ps).isPrefixOf ((p :: ps) ++ a) = true :=
          List.isPrefixOf_iff_prefix.mpr (List.prefix_append _ _)
        rw [List.cons_append]
        rw [replaceFuel_cons_pos (p :: ps) rep f p (ps ++ a) hpat
          (by rw [← List.cons_append]; exact hpre)]
        rw [← List.cons_append, List.drop_left, List.nil_append]
        congr 1
        apply replaceFuel_no_occ
        · rw [List.length_append] at hfuel
          simp only [List.length_cons] at hfuel
          omega
        · apply no_occ_of_uniq (p :: ps) a hpat
          intro i hi hp
          have h5 := huniq i hi hp
          simpa using h5
  | cons x b' ih =>
    intro fuel a hfuel huniq
    rw [List.cons_append] at hfuel huniq ⊢
    cases fuel with
    | zero => simp at hfuel
    | succ f =>
      have hnotpre : ¬ (pat ≠ [] ∧ pat.isPrefixOf (x :: (b' ++ (pat ++ a))) = true) := by
        rintro ⟨_, hp⟩
        have h0 := huniq 0 (Nat.zero_le _) (by simpa using hp)
        simp at h0
      have harg : ∀ i, i ≤ (b' ++ (pat ++ a)).length →
          pat.isPrefixOf (List.drop i (b' ++ (pat ++ a))) = true → i = b'.length := by
        intro i hi hp
        have h2 := huniq (i + 1) (by simp only [List.length_cons]; omega) (by simpa using hp)
        simp only [List.length_cons] at h2
        omega
      rw [replaceFuel_cons_neg pat rep f x (b' ++ (pat ++ a)) hnotpre,
        ih f a (by simpa using hfuel) harg]
      exact (List.cons_append x b' (rep ++ a)).symm

theorem replaceAllL_single (pat rep b a : List Char) (hpat : pat ≠ [])
    (huniq : ∀ i, i ≤ (b ++ (pat ++ a)).length →
      pat.isPrefixOf (List.drop i (b ++ (pat ++ a))) = true → i = b.length) :
    replaceAllL pat rep (b ++ (pat ++ a)) = b ++ (rep ++ a) :=
  replaceFuel_single pat rep hpat b _ a (Nat.le_refl _) huniq

theorem replaceAllL_hash_head (pat rep t : List Char) (hpat : '#' ∉ pat) :
    ∃ t', replaceAllL pat rep ('#' :: t) = '#' :: t' := by
  have hcond : ¬ (pat ≠ [] ∧ pat.isPrefixOf ('#' :: t) = true) := by
    rintro ⟨hne, hp⟩
    cases pat with
    | nil => exact hne rfl
    | cons q qs =>
      rw [List.isPrefixOf_iff_prefix, List.cons_prefix_cons] at hp
      obtain ⟨hq, _⟩ := hp
      subst hq
      exact hpat (List.mem_cons_self _ _)
  unfold replaceAllL
  simp only [List.length_cons]
  rw [replaceFuel_cons_neg pat rep t.length '#' t hcond]
  exact ⟨_, rfl⟩

theorem replaceAllL_ne_hash_head (pat : List Char) (r0 : Char) (rs : List Char)
    (c : Char) (t : List Char) (hc : c ≠ '#') (hr0 : r0 ≠ '#') :
    ∃ d t', replaceAllL pat (r0 :: rs) (c :: t) = d :: t' ∧ d ≠ '#' := by
  unfold replaceAllL
  simp only [List.length_cons]
  by_cases hcond : pat ≠ [] ∧ pat.isPrefixOf (c :: t) = true
  · rw [replaceFuel_cons_pos pat (r0 :: rs) t.length c t hcond.1 hcond.2]
    exact ⟨r0, _, rfl, hr0⟩
  · rw [replaceFuel_cons_neg pat (r0 :: rs) t.length c t hcond]
    exact ⟨c, _, rfl, hc⟩

theorem uriMatchAt_ne_nil {l v : List Char} (h : uriMatchAt l = some v) : v ≠ [] := by
  unfold uriMatchAt at h
  split at h
  · dsimp only at h
    split at h
    · rename_i hcond
      injection h with hv
      rw [← hv]
      exact hcond.1
    · exact absurd h (by simp)
  · exact absurd h (by simp)

theorem findURIAux_ne_nil : ∀ l v, findURIAux l = some v → v ≠ [] := by
  intro l
  induction l with
  | nil => intro v h; simp [findURIAux] at h
  | cons c t ih =>
    intro v h
    simp only [findURIAux] at h
    cases hm : uriMatchAt (c :: t) with
    | some w =>
      rw [hm] at h
      injection h with hv
      rw [← hv]
      exact uriMatchAt_ne_nil hm
    | none =>
      rw [hm] at h
      exact ih v h

theorem findURICapture_ne_empty {s uri : String} (h : findURICapture s = some uri) :
    uri.data ≠ [] := by
  unfold findURICapture at h
  cases haux : findURIAux s.data with
  | none => rw [haux] at h; simp at h
  | some v =>
    rw [haux] at h
    simp only [Option.map_some'] at h
    injection h with hv
    rw [← hv, data_mk]
    exact findURIAux_ne_nil s.data v haux

/-! ## Unfolding lemmas for the rewriter -/

theorem rewriteLines_nil (base : String) (skip : Bool) : rewriteLines base skip [] = [] := rfl

theorem rewriteLines_cons_blank {l : String} (base : String) (skip : Bool)
    (rest : List String) (h : pyStrip l = "") :
    rewriteLines base skip (l :: rest) = rewriteLines base skip rest := by
  simp only [rewriteLines]
  rw [if_pos h]

theorem rewriteLines_cons {l : String} (base : String) (skip : Bool)
    (rest : List String) (h : pyStrip l ≠ "") :
    rewriteLines base skip (l :: rest)
      = (lineStep base skip (pyStrip l)).1
        :: rewriteLines base (lineStep base skip (pyStrip l)).2 rest := by
  simp only [rewriteLines]
  rw [if_neg h]

theorem lineStep_inf {s : String} (base : String) (skip : Bool)
    (h : strStartsWith "#EXT-X-STREAM-INF" s = true) :
    lineStep base skip s = (s, true) := by
  simp [lineStep, h]

theorem lineStep_variant {s : String} (base : String)
    (h : strStartsWith "#EXT-X-STREAM-INF" s = false) :
    lineStep base true s = (callback base s, false) := by
  simp [lineStep, h]

theorem lineStep_bare {s : String} (base : String)
    (h1 : strStartsWith "#EXT-X-STREAM-INF" s = false)
    (h2 : strStartsWith "#" s = false)
    (h3 : strStartsWith "http" (strToLower s) = false) :
    lineStep base false s = (callback base s, false) := by
  simp [lineStep, h1, h2, h3]

theorem lineStep_attr {s : String} (base : String)
    (h1 : strStartsWith "#EXT-X-STREAM-INF" s = false)
    (h2 : ((!strStartsWith "#" s) && (!strStartsWith "http" (strToLower s))) = false)
    (h3 : containsSub "URI=\"" s = true) :
    lineStep base false s = (attrRewrite base s, false) := by
  simp [lineStep, h1, h2, h3]

theorem lineStep_other {s : String} (base : String)
    (h1 : strStartsWith "#EXT-X-STREAM-INF" s = false)
    (h2 : ((!strStartsWith "#" s) && (!strStartsWith "http" (strToLower s))) = false)
    (h3 : containsSub "URI=\"" s = false) :
    lineStep base false s = (s, false) := by
  simp [lineStep, h1, h2, h3]

theorem callback_head (base r : String) : ∃ t, (callback base r).data = '/' :: t := by
  unfold callback
  rw [String.data_append]
  have hd : ("/proxy?url=" : String).data = '/' :: "proxy?url=".data := rfl
  rw [hd, List.cons_append]
  exact ⟨_, rfl⟩

theorem nonComment_of_data {l : String} {c : Char} {t : List Char}
    (hld : l.data = c :: t) (hc : c ≠ '#') : nonComment l = true := by
  unfold nonComment
  have hne : (l != "") = true := by
    rw [bne_iff_ne]
    intro h
    rw [(str_empty_iff l).mp h] at hld
    exact List.cons_ne_nil c t hld.symm
  rw [hne, startsWith_hash_false hld hc]
  rfl

theorem nonComment_false_of_hash {l : String} (h : strStartsWith "#" l = true) :
    nonComment l = false := by
  unfold nonComment
  rw [h]
  simp

theorem nonComment_callback (base r : String) : nonComment (callback base r) = true := by
  obtain ⟨t, h⟩ := callback_head base r
  exact nonComment_of_data h (by decide)

theorem nonComment_true_elim {l : String} (h : nonComment l = true) :
    l ≠ "" ∧ strStartsWith "#" l = false := by
  unfold nonComment at h
  rw [Bool.and_eq_true] at h
  exact ⟨bne_iff_ne.mp h.1, by simpa using h.2⟩

theorem nonComment_true_intro {l : String} (h1 : l ≠ "")
    (h2 : strStartsWith "#" l = false) : nonComment l = true := by
  unfold nonComment
  rw [h2, bne_iff_ne.mpr h1]
  rfl

theorem uriBearing_of_nonComment {l : String} (h : nonComment l = true) :
    uriBearing l = true := by
  unfold uriBearing
  rw [h]
  rfl

theorem uriBearing_of_contains {l : String} (h : containsSub "URI=\"" l = true) :
    uriBearing l = true := by
  unfold uriBearing
  rw [h]
  simp

theorem startsWith_hash_of_data {l : String} {t : List Char} (h : l.data = '#' :: t) :
    strStartsWith "#" l = true := by
  unfold strStartsWith
  rw [h]
  have hd : ("#" : String).data = ['#'] := rfl
  rw [hd]
  simp [List.isPrefixOf]

theorem attrRewrite_nonComment (base l : String) (hblank : l ≠ "")
    (hOK : attrCaptureOk l = true) (hstrip : pyStrip l = l) :
    nonComment (attrRewrite base l) = nonComment l := by
  unfold attrRewrite
  cases hcap : findURICapture l with
  | none => rfl
  | some uri =>
    unfold attrCaptureOk at hOK
    rw [hstrip, hcap] at hOK
    have hOK2 : uri.data.all (fun c => c != '#') = true := hOK
    show nonComment (pyReplace l uri (callback base uri)) = nonComment l
    cases hhash : strStartsWith "#" l with
    | true =>
      obtain ⟨t, hld⟩ := startsWith_hash_head hhash
      have hmem : '#' ∉ uri.data := by
        intro hin
        have := List.all_eq_true.mp hOK2 _ hin
        simp at this
      obtain ⟨t', hout⟩ := replaceAllL_hash_head uri.data (callback base uri).data t hmem
      have hrepl : pyReplace l uri (callback base uri) = ⟨'#' :: t'⟩ := by
        unfold pyReplace
        rw [hld, hout]
      rw [hrepl, nonComment_false_of_hash (startsWith_hash_of_data (l := (⟨'#' :: t'⟩ : String)) rfl),
        nonComment_false_of_hash hhash]
    | false =>
      have hdne : l.data ≠ [] := fun hnil => hblank (str_ext hnil)
      obtain ⟨c, t, hld⟩ : ∃ c t, l.data = c :: t := by
        cases hl : l.data with
        | nil => exact absurd hl hdne
        | cons c t => exact ⟨c, t, rfl⟩
      have hc : c ≠ '#' := head_ne_hash_of_startsWith_false hld hhash
      obtain ⟨cs, hcb⟩ := callback_head base uri
      obtain ⟨d, t', hout, hd⟩ :=
        replaceAllL_ne_hash_head uri.data '/' cs c t hc (by decide)
      have hrepl : pyReplace l uri (callback base uri) = ⟨d :: t'⟩ := by
        unfold pyReplace
        rw [hld, hcb, hout]
      rw [hrepl, nonComment_of_data (l := (⟨d :: t'⟩ : String)) rfl hd,
        nonComment_of_data hld hc]

theorem rewrite_structure_aux (base : String) :
    ∀ (lines : List String) (skip : Bool),
      (∀ l ∈ lines, pyStrip l = l) →
      variantOk skip lines = true →
      (∀ l ∈ lines, attrCaptureOk l = true) →
      List.Forall₂
        (fun a b => nonComment b = nonComment a ∧ (uriBearing a = false → b = a))
        (lines.filter (fun l => l != "")) (rewriteLines base skip lines) := by
  intro lines
  induction lines with
  | nil => intro skip _ _ _; simp [rewriteLines]
  | cons l rest ih =>
    intro skip h0 h1 h2
    have hstrip : pyStrip l = l := h0 l (List.mem_cons_self _ _)
    have h0' : ∀ x ∈ rest, pyStrip x = x := fun x hx => h0 x (List.mem_cons_of_mem _ hx)
    have h2' : ∀ x ∈ rest, attrCaptureOk x = true := fun x hx => h2 x (List.mem_cons_of_mem _ hx)
    simp only [variantOk, hstrip] at h1
    by_cases hblank : l = ""
    · have hstrip0 : pyStrip l = "" := by rw [hstrip, hblank]
      rw [rewriteLines_cons_blank base skip rest hstrip0]
      rw [if_pos hblank] at h1
      have hfl : (l :: rest).filter (fun x => x != "") = rest.filter (fun x => x != "") := by
        simp [List.filter_cons, hblank]
      rw [hfl]
      exact ih skip h0' h1 h2'
    · have hsne : pyStrip l ≠ "" := by rw [hstrip]; exact hblank
      rw [rewriteLines_cons base skip rest hsne, hstrip]
      rw [if_neg hblank] at h1
      have hfl : (l :: rest).filter (fun x => x != "")
          = l :: rest.filter (fun x => x != "") := by
        simp [List.filter_cons, bne_iff_ne.mpr hblank]
      rw [hfl]
      cases hinf : strStartsWith "#EXT-X-STREAM-INF" l with
      | true =>
        rw [lineStep_inf base skip hinf]
        rw [if_pos hinf] at h1
        exact List.Forall₂.cons ⟨rfl, fun _ => rfl⟩ (ih true h0' h1 h2')
      | false =>
        rw [if_neg (by simp [hinf])] at h1
        cases skip with
        | true =>
          rw [if_pos rfl, Bool.and_eq_true] at h1
          have hhash : strStartsWith "#" l = false := by simpa using h1.1
          rw [lineStep_variant base hinf]
          refine List.Forall₂.cons ?_ (ih false h0' h1.2 h2')
          refine ⟨?_, ?_⟩
          · rw [nonComment_callback, nonComment_true_intro hblank hhash]
          · intro hub
            rw [uriBearing_of_nonComment (nonComment_true_intro hblank hhash)] at hub
            exact absurd hub (by simp)
        | false =>
          rw [if_neg (by simp)] at h1
          cases hbare : ((!strStartsWith "#" l) && (!strStartsWith "http" (strToLower l))) with
          | true =>
            rw [Bool.and_eq_true] at hbare
            have hhash : strStartsWith "#" l = false := by simpa using hbare.1
            have hhttp : strStartsWith "http" (strToLower l) = false := by simpa using hbare.2
            rw [lineStep_bare base hinf hhash hhttp]
            refine List.Forall₂.cons ?_ (ih false h0' h1 h2')
            refine ⟨?_, ?_⟩
            · rw [nonComment_callback, nonComment_true_intro hblank hhash]
            · intro hub
              rw [uriBearing_of_nonComment (nonComment_true_intro hblank hhash)] at hub
              exact absurd hub (by simp)
          | false =>
            cases hcont : containsSub "URI=\"" l with
            | true =>
              rw [lineStep_attr base hinf hbare hcont]
              refine List.Forall₂.cons ?_ (ih false h0' h1 h2')
              refine ⟨?_, ?_⟩
              · exact attrRewrite_nonComment base l hblank (h2 l (List.mem_cons_self _ _)) hstrip
              · intro hub
                rw [uriBearing_of_contains hcont] at hub
                exact absurd hub (by simp)
            | false =>
              rw [lineStep_other base hinf hbare hcont]
              exact List.Forall₂.cons ⟨rfl, fun _ => rfl⟩ (ih false h0' h1 h2')

theorem forall2_filter_length {la lb : List String}
    (h : List.Forall₂
      (fun a b => nonComment b = nonComment a ∧ (uriBearing a = false → b = a)) la lb) :
    (lb.filter nonComment).length = (la.filter nonComment).length := by
  induction h with
  | nil => rfl
  | @cons a b la' lb' hab hrest ih =>
    simp only [List.filter_cons, hab.1]
    cases hnc : nonComment a
    · simpa [hnc] using ih
    · simp [hnc, ih]

theorem filter_ne_noncomment (lines : List String) :
    (lines.filter (fun l => l != "")).filter nonComment = lines.filter nonComment := by
  induction lines with
  | nil => rfl
  | cons l t ih =>
    by_cases h : l = ""
    · subst h
      simp [List.filter_cons, nonComment, ih]
    · have hb : (l != "") = true := bne_iff_ne.mpr h
      simp only [List.filter_cons, hb]
      cases hnc : nonComment l
      · simp [hnc, ih]
      · simp [hnc, ih]

/-! ## Claims about the playlist rewriter -/

/-- C2, counterexample: in the line `#EXT-X-MEDIA:NAME="en",URI="en"` the
extracted value `en` also occurs inside the `NAME` attribute, and
`line.replace` rewrites that occurrence too, so characters outside the first
quoted substring change — the output differs from what the claim mandates. -/
theorem attr_rewrite_counterexample :
    rewriteLines "https://host/base/" false ["#EXT-X-MEDIA:NAME=\"en\",URI=\"en\""]
      = ["#EXT-X-MEDIA:NAME=\"/proxy?url=https://host/base/en\",URI=\"/proxy?url=https://host/base/en\""]
    ∧ ("#EXT-X-MEDIA:NAME=\"/proxy?url=https://host/base/en\",URI=\"/proxy?url=https://host/base/en\"" : String)
      ≠ "#EXT-X-MEDIA:NAME=\"en\",URI=\"/proxy?url=https://host/base/en\"" := by
  decide

/-- C2, amended: on a stripped comment line decomposing as
`p ++ URI="`value`" ++ s` whose extracted value occurs in the line only at
that quoted spot, the rewrite replaces exactly that quoted substring with the
proxy callback of its resolved URI and leaves every other character of the
line unchanged. -/
theorem attr_rewrite_unique_occurrence (base p uri s line : String) (rest : List String)
    (hline : line = (p ++ "URI=\"") ++ (uri ++ ("\"" ++ s)))
    (hstrip : pyStrip line = line)
    (hhash : strStartsWith "#" line = true)
    (hinf : strStartsWith "#EXT-X-STREAM-INF" line = false)
    (hcap : findURICapture line = some uri)
    (huniq : ∀ i, i ≤ line.data.length → uri.data.isPrefixOf (line.data.drop i) = true →
      i = p.data.length + 5) :
    rewriteLines base false (line :: rest)
      = ((p ++ "URI=\"") ++ (callback base uri ++ ("\"" ++ s)))
        :: rewriteLines base false rest := by
  have hne : line ≠ "" := by
    obtain ⟨t, h⟩ := startsWith_hash_head hhash
    intro he
    rw [(str_empty_iff line).mp he] at h
    exact List.cons_ne_nil _ _ h.symm
  have hsne : pyStrip line ≠ "" := by rw [hstrip]; exact hne
  rw [rewriteLines_cons base false rest hsne, hstrip]
  have hbare : ((!strStartsWith "#" line) && (!strStartsWith "http" (strToLower line)))
      = false := by
    rw [hhash]; rfl
  have hdata : line.data = (p ++ "URI=\"").data ++ (uri.data ++ ("\"" ++ s).data) := by
    rw [hline]
    simp only [String.data_append]
  have hcont : containsSub "URI=\"" line = true := by
    unfold containsSub
    rw [hdata, String.data_append, List.append_assoc]
    exact containsSubL_append _ _ _
  rw [lineStep_attr base hinf hbare hcont]
  congr 1
  show attrRewrite base line = (p ++ "URI=\"") ++ (callback base uri ++ ("\"" ++ s))
  unfold attrRewrite
  rw [hcap]
  have hblen : (p ++ "URI=\"").data.length = p.data.length + 5 := by
    rw [String.data_append, List.length_append]
    rfl
  have huniq' : ∀ i, i ≤ ((p ++ "URI=\"").data ++ (uri.data ++ ("\"" ++ s).data)).length →
      uri.data.isPrefixOf
        (List.drop i ((p ++ "URI=\"").data ++ (uri.data ++ ("\"" ++ s).data))) = true →
      i = (p ++ "URI=\"").data.length := by
    intro i hi hp
    rw [← hdata] at hi hp
    rw [hblen]
    exact huniq i hi hp
  apply str_ext
  unfold pyReplace
  rw [data_mk, hdata]
  rw [replaceAllL_single uri.data (callback base uri).data (p ++ "URI=\"").data
    (("\"" ++ s)).data (findURICapture_ne_empty hcap) huniq']
  simp only [String.data_append, List.append_assoc]

/-- C2, witness: the spec's own attribute example rewrites as amended. -/
theorem attr_rewrite_unique_occurrence_witness :
    rewriteLines "https://host/base/" false ["#EXT-X-MEDIA:TYPE=AUDIO,URI=\"audio/en.m3u8\""]
      = ["#EXT-X-MEDIA:TYPE=AUDIO,URI=\"/proxy?url=https://host/base/audio/en.m3u8\""] := by
  have h := attr_rewrite_unique_occurrence "https://host/base/" "#EXT-X-MEDIA:TYPE=AUDIO,"
    "audio/en.m3u8" "" "#EXT-X-MEDIA:TYPE=AUDIO,URI=\"audio/en.m3u8\"" []
    (by decide) (by decide) (by decide) (by decide) (by decide) (by decide)
  rw [h]
  decide

/-- C3, counterexample: when a second `#EXT-X-STREAM-INF` directive is the
next non-blank line after a first one, the code emits it unchanged (the
directive check precedes the flag check) instead of treating it as a URI
reference resolved into a proxy callback, contrary to the claim. -/
theorem variant_flag_counterexample :
    rewriteLines "https://host/base/" false
        ["#EXT-X-STREAM-INF:BANDWIDTH=100", "#EXT-X-STREAM-INF:BANDWIDTH=200", "low.m3u8"]
      = ["#EXT-X-STREAM-INF:BANDWIDTH=100", "#EXT-X-STREAM-INF:BANDWIDTH=200",
         "/proxy?url=https://host/base/low.m3u8"]
    ∧ ("#EXT-X-STREAM-INF:BANDWIDTH=200" : String)
        ≠ callback "https://host/base/" "#EXT-X-STREAM-INF:BANDWIDTH=200" := by
  decide

/-- C3, amended: a line whose stripped form starts with `#EXT-X-STREAM-INF`
is emitted unchanged and sets the expecting-variant flag; with the flag set,
the next non-blank line — provided it does not itself start with
`#EXT-X-STREAM-INF` — is treated in its entirety as a URI reference, emitted
as the proxy callback of its resolution against the base, and the flag is
cleared. -/
theorem stream_inf_variant_pairing (base : String) :
    (∀ (skip : Bool) (l : String) (rest : List String),
      pyStrip l = l → strStartsWith "#EXT-X-STREAM-INF" l = true →
      rewriteLines base skip (l :: rest) = l :: rewriteLines base true rest) ∧
    (∀ (blanks : List String) (l : String) (rest : List String),
      (∀ b ∈ blanks, pyStrip b = "") → pyStrip l = l → l ≠ "" →
      strStartsWith "#EXT-X-STREAM-INF" l = false →
      rewriteLines base true (blanks ++ l :: rest)
        = callback base l :: rewriteLines base false rest) := by
  constructor
  · intro skip l rest hstrip hinf
    have hne : pyStrip l ≠ "" := by
      rw [hstrip]
      obtain ⟨t, h⟩ := startsWith_head (p := "#EXT-X-STREAM-INF") rfl hinf
      intro he
      rw [(str_empty_iff l).mp he] at h
      exact List.cons_ne_nil _ _ h.symm
    rw [rewriteLines_cons base skip rest hne, hstrip, lineStep_inf base skip hinf]
  · intro blanks
    induction blanks with
    | nil =>
      intro l rest _ hstrip hne hinf
      have hsne : pyStrip l ≠ "" := by rw [hstrip]; exact hne
      rw [List.nil_append, rewriteLines_cons base true rest hsne, hstrip,
        lineStep_variant base hinf]
    | cons b bs ih =>
      intro l rest hbl hstrip hne hinf
      have hb : pyStrip b = "" := hbl b (List.mem_cons_self _ _)
      rw [List.cons_append, rewriteLines_cons_blank base true _ hb]
      exact ih l rest (fun x hx => hbl x (List.mem_cons_of_mem _ hx)) hstrip hne hinf

/-- C3, witness: the spec's variant-directive pairing example. -/
theorem stream_inf_variant_pairing_witness :
    rewriteLines "https://host/base/" false
        ["#EXT-X-STREAM-INF:BANDWIDTH=100", "low/index.m3u8"]
      = ["#EXT-X-STREAM-INF:BANDWIDTH=100",
         "/proxy?url=https://host/base/low/index.m3u8"] := by
  have h1 := (stream_inf_variant_pairing "https://host/base/").1 false
    "#EXT-X-STREAM-INF:BANDWIDTH=100" ["low/index.m3u8"] (by decide) (by decide)
  have h2 := (stream_inf_variant_pairing "https://host/base/").2 []
    "low/index.m3u8" [] (by intro b hb; simp at hb) (by decide) (by decide) (by decide)
  rw [List.nil_append] at h2
  rw [h1, h2]
  decide

/-- C4, counterexample: a comment line right after `#EXT-X-STREAM-INF` is
consumed as a variant URI and becomes a non-comment callback line, so the
count of non-comment lines is not preserved (input has 0, output has 1). -/
theorem rewrite_noncomment_count_counterexample :
    ((rewriteLines "https://host/base/" false
        ["#EXT-X-STREAM-INF:BANDWIDTH=100", "#EXT-X-ENDLIST"]).filter nonComment).length = 1
    ∧ (((["#EXT-X-STREAM-INF:BANDWIDTH=100", "#EXT-X-ENDLIST"] : List String)).filter
        nonComment).length = 0 := by
  decide

/-- C4, amended: provided the lines are pre-stripped, no comment line sits in
variant position, and no extracted `URI="..."` value contains `#`, the
rewrite maps the blank-elided input lines one-to-one and in order onto the
output lines, preserving each line's comment status (hence the relative
ordering and count of non-comment lines), and emits every non-URI-bearing
line unchanged. -/
theorem rewrite_structure_preserved (base : String) (lines : List String)
    (h0 : ∀ l ∈ lines, pyStrip l = l)
    (h1 : variantOk false lines = true)
    (h2 : ∀ l ∈ lines, attrCaptureOk l = true) :
    List.Forall₂
      (fun a b => nonComment b = nonComment a ∧ (uriBearing a = false → b = a))
      (lines.filter (fun l => l != "")) (rewriteLines base false lines)
    ∧ ((rewriteLines base false lines).filter nonComment).length
        = (lines.filter nonComment).length := by
  have h := rewrite_structure_aux base lines false h0 h1 h2
  refine ⟨h, ?_⟩
  rw [forall2_filter_length h, filter_ne_noncomment]

/-- C4, witness: a five-line master playlist satisfies the amended claim. -/
theorem rewrite_structure_preserved_witness :
    List.Forall₂
      (fun a b => nonComment b = nonComment a ∧ (uriBearing a = false → b = a))
      ((["#EXTM3U", "#EXT-X-STREAM-INF:BANDWIDTH=100", "low/index.m3u8", "seg1.ts",
         "#EXT-X-ENDLIST"] : List String).filter (fun l => l != ""))
      (rewriteLines "https://host/base/" false
        ["#EXTM3U", "#EXT-X-STREAM-INF:BANDWIDTH=100", "low/index.m3u8", "seg1.ts",
         "#EXT-X-ENDLIST"])
    ∧ ((rewriteLines "https://host/base/" false
          ["#EXTM3U", "#EXT-X-STREAM-INF:BANDWIDTH=100", "low/index.m3u8", "seg1.ts",
           "#EXT-X-ENDLIST"]).filter nonComment).length
        = ((["#EXTM3U", "#EXT-X-STREAM-INF:BANDWIDTH=100", "low/index.m3u8", "seg1.ts",
             "#EXT-X-ENDLIST"] : List String).filter nonComment).length :=
  rewrite_structure_preserved "https://host/base/" _ (by decide) (by decide) (by decide)

/-- C7: a stripped bare line that is already an absolute http(s) URI (scheme
prefix, no raw quote) and not in variant position is emitted unchanged by the
rewriter, not wrapped in a proxy callback. -/
theorem absolute_uri_passthrough (base l : String) (rest : List String)
    (hstrip : pyStrip l = l) (habs : isAbsHttpURI l = true) :
    rewriteLines base false (l :: rest) = l :: rewriteLines base false rest := by
  unfold isAbsHttpURI at habs
  rw [Bool.and_eq_true, Bool.or_eq_true] at habs
  have hhttp : strStartsWith "http" (strToLower l) = true := by
    rcases habs.1 with h | h
    · exact startsWith_mono (by decide) h
    · exact startsWith_mono (by decide) h
  have hnoq : '"' ∉ l.data := by
    intro hin
    have := List.all_eq_true.mp habs.2 _ hin
    simp at this
  have hne : pyStrip l ≠ "" := by rw [hstrip]; exact http_ne_empty hhttp
  rw [rewriteLines_cons base false rest hne, hstrip]
  have hinf := http_not_inf hhttp
  have hbare : ((!strStartsWith "#" l) && (!strStartsWith "http" (strToLower l)))
      = false := by
    rw [hhttp]
    simp
  have hcont : containsSub "URI=\"" l = false := by
    cases hc : containsSub "URI=\"" l with
    | false => rfl
    | true =>
      unfold containsSub at hc
      have := containsSubL_mem _ _ hc '"' (by decide)
      exact absurd this hnoq
  rw [lineStep_other base hinf hbare hcont]

/-- C7, witness: an absolute CDN URL line passes through unchanged. -/
theorem absolute_uri_passthrough_witness :
    rewriteLines "https://host/base/" false ["https://cdn.example.com/x.ts"]
      = ["https://cdn.example.com/x.ts"] := by
  rw [absolute_uri_passthrough "https://host/base/" "https://cdn.example.com/x.ts" []
    (by decide) (by decide)]
  decide

/-! ## Claims about the dispatcher and relay -/

theorem proxyStream_relay (env : Env) (raw : String) (rangeHeader : Option String)
    (h1 : raw ≠ "")
    (h3 : strEndsWith "/uwu.m3u8" (pyUnquote raw) = false)
    (h4 : strEndsWith ".m3u8" (strToLower (pyUnquote raw)) = false) :
    proxyStream env (some raw) rangeHeader
      = relayResponse env (pyUnquote raw) rangeHeader := by
  simp only [proxyStream]
  rw [if_neg h1]
  simp [h3, h4]

/-- C9: a `GET /proxy` request without the `url` query parameter is answered
`400` with the plain-text body `Missing 'url' query parameter`, and the
response does not depend on the upstream environment or on the `Range` header
— no upstream request is consulted. -/
theorem missing_url_param_400 :
    ∀ (env env' : Env) (r r' : Option String),
      proxyStream env none r = proxyStream env' none r'
      ∧ (proxyStream env none r).status = 400
      ∧ (proxyStream env none r).body = "Missing 'url' query parameter"
      ∧ (proxyStream env none r).contentType = some "text/plain" :=
  fun _ _ _ _ => ⟨rfl, rfl, rfl, rfl⟩

/-- C5: on the relay path, a decoded origin URL ending in `.ts`
(case-insensitively) always yields content type `video/MP2T`, whatever
content type the probe reported; any other relay URL yields the probe's
content type, or `video/mp4` when the probe reports none. -/
theorem relay_content_type_rule (env : Env) (raw u : String) (rangeHeader : Option String)
    (p : UpstreamResp)
    (h1 : raw ≠ "") (h2 : pyUnquote raw = u)
    (h3 : strEndsWith "/uwu.m3u8" u = false)
    (h4 : strEndsWith ".m3u8" (strToLower u) = false)
    (h5 : probeResult env u = .ok p) :
    (strEndsWith ".ts" (strToLower u) = true →
      (proxyStream env (some raw) rangeHeader).contentType = some "video/MP2T")
    ∧ (strEndsWith ".ts" (strToLower u) = false →
      (proxyStream env (some raw) rangeHeader).contentType
        = some (p.contentType.getD "video/mp4")) := by
  have hps : proxyStream env (some raw) rangeHeader = relayResponse env u rangeHeader := by
    have h := proxyStream_relay env raw rangeHeader h1
      (by rw [h2]; exact h3) (by rw [h2]; exact h4)
    rw [h2] at h
    exact h
  rw [hps]
  unfold relayResponse
  rw [h5]
  constructor
  · intro hts
    simp [hts]
  · intro hts
    simp [hts]

/-- C5, witness: `.TS` forces `video/MP2T` against a `text/plain` upstream;
an `.mp4` URL with no upstream content type defaults to `video/mp4`. -/
theorem relay_content_type_rule_witness :
    (proxyStream envTs (some "https://media.example.com/a.TS") none).contentType
      = some "video/MP2T"
    ∧ (proxyStream envMp4 (some "https://media.example.com/b.mp4") none).contentType
      = some "video/mp4" := by
  constructor
  · exact (relay_content_type_rule envTs "https://media.example.com/a.TS"
      "https://media.example.com/a.TS" none tsProbeResp (by decide) (by decide)
      (by decide) (by decide) (by decide)).1 (by decide)
  · have h := (relay_content_type_rule envMp4 "https://media.example.com/b.mp4"
      "https://media.example.com/b.mp4" none mp4ProbeResp (by decide) (by decide)
      (by decide) (by decide) (by decide)).2 (by decide)
    rw [h]
    rfl

/-- C6: for a `.m3u8` proxy request (raw bypass or rewriting branch alike), a
raising upstream fetch yields `502`, and an upstream status ≥ 400 is forwarded
verbatim together with the upstream body and its content type, with no
rewriting applied. -/
theorem playlist_error_propagation (env : Env) (raw u : String) (rangeHeader : Option String)
    (h1 : raw ≠ "") (h2 : pyUnquote raw = u)
    (hm : strEndsWith ".m3u8" (strToLower u) = true) :
    (env.fetch .GET u VIDEO_HEADERS = .error () →
      (proxyStream env (some raw) rangeHeader).status = 502)
    ∧ (∀ res, env.fetch .GET u VIDEO_HEADERS = .ok res → 400 ≤ res.status →
      (proxyStream env (some raw) rangeHeader).status = res.status
      ∧ (proxyStream env (some raw) rangeHeader).body = res.body
      ∧ ∀ c, res.contentType = some c →
          (proxyStream env (some raw) rangeHeader).contentType = some c) := by
  cases huwu : strEndsWith "/uwu.m3u8" u with
  | true =>
    cases hfetch : env.fetch .GET u VIDEO_HEADERS with
    | error e =>
      cases e
      constructor
      · intro _
        simp [proxyStream, h1, h2, huwu, hfetch, http502]
      · intro res hok _
        exact absurd hok (by simp)
    | ok res0 =>
      constructor
      · intro herr
        exact absurd herr (by simp)
      · intro res hok h400
        injection hok with hres
        subst hres
        refine ⟨?_, ?_, ?_⟩
        · simp [proxyStream, h1, h2, huwu, hfetch, uwuResp]
        · simp [proxyStream, h1, h2, huwu, hfetch, uwuResp]
        · intro c hc
          simp [proxyStream, h1, h2, huwu, hfetch, uwuResp, hc]
  | false =>
    cases hfetch : env.fetch .GET u VIDEO_HEADERS with
    | error e =>
      cases e
      constructor
      · intro _
        simp [proxyStream, h1, h2, huwu, hm, hfetch, http502]
      · intro res hok _
        exact absurd hok (by simp)
    | ok res0 =>
      constructor
      · intro herr
        exact absurd herr (by simp)
      · intro res hok h400
        injection hok with hres
        subst hres
        refine ⟨?_, ?_, ?_⟩
        · simp [proxyStream, h1, h2, huwu, hm, hfetch, h400, m3u8ErrResp]
        · simp [proxyStream, h1, h2, huwu, hm, hfetch, h400, m3u8ErrResp]
        · intro c hc
          simp [proxyStream, h1, h2, huwu, hm, hfetch, h400, m3u8ErrResp, hc]

/-- C6, witness: an upstream 404 with an HTML body is forwarded verbatim. -/
theorem playlist_error_propagation_witness :
    (proxyStream envPl404 (some "https://media.example.com/x.m3u8") none).status = 404
    ∧ (proxyStream envPl404 (some "https://media.example.com/x.m3u8") none).body = "nf"
    ∧ (proxyStream envPl404 (some "https://media.example.com/x.m3u8") none).contentType
        = some "text/html" := by
  have h := (playlist_error_propagation envPl404 "https://media.example.com/x.m3u8"
    "https://media.example.com/x.m3u8" none (by decide) (by decide) (by decide)).2
    pl404Resp (by decide) (by decide)
  exact ⟨h.1, h.2.1, h.2.2 "text/html" (by decide)⟩

theorem relayHeaders_mem_cl (ct : String) (p : UpstreamResp) (v : String)
    (hv : p.contentLength = some v) (hne : v ≠ "") :
    ("Content-Length", v) ∈ relayHeaders ct p := by
  unfold relayHeaders
  rw [List.mem_filterMap]
  refine ⟨("Content-Length", p.contentLength), by simp, ?_⟩
  rw [hv]
  simp [hne]

theorem relayHeaders_no_cl (ct : String) (p : UpstreamResp)
    (h : p.contentLength = none ∨ p.contentLength = some "") (v : String) :
    ("Content-Length", v) ∉ relayHeaders ct p := by
  intro hmem
  unfold relayHeaders at hmem
  rw [List.mem_filterMap] at hmem
  obtain ⟨a, ha, hf⟩ := hmem
  simp only [List.mem_cons, List.not_mem_nil, or_false] at ha
  rcases ha with rfl | rfl | rfl | rfl | rfl
  · dsimp only at hf
    split at hf <;> simp at hf
  · rcases h with hcl | hcl <;> rw [hcl] at hf <;> simp at hf
  · dsimp only at hf
    split at hf
    · simp at hf
    · split at hf <;> simp at hf
  · dsimp only at hf
    split at hf <;> simp at hf
  · simp at hf

theorem relayHeaders_mem_cr (ct : String) (p : UpstreamResp) (v : String)
    (hv : p.contentRange = some v) (hne : v ≠ "") :
    ("Content-Range", v) ∈ relayHeaders ct p := by
  unfold relayHeaders
  rw [List.mem_filterMap]
  refine ⟨("Content-Range", p.contentRange), by simp, ?_⟩
  rw [hv]
  simp [hne]

theorem relayHeaders_no_cr (ct : String) (p : UpstreamResp)
    (h : p.contentRange = none ∨ p.contentRange = some "") (v : String) :
    ("Content-Range", v) ∉ relayHeaders ct p := by
  intro hmem
  unfold relayHeaders at hmem
  rw [List.mem_filterMap] at hmem
  obtain ⟨a, ha, hf⟩ := hmem
  simp only [List.mem_cons, List.not_mem_nil, or_false] at ha
  rcases ha with rfl | rfl | rfl | rfl | rfl
  · dsimp only at hf
    split at hf <;> simp at hf
  · dsimp only at hf
    split at hf
    · simp at hf
    · split at hf <;> simp at hf
  · rcases h with hcr | hcr <;> rw [hcr] at hf <;> simp at hf
  · dsimp only at hf
    split at hf <;> simp at hf
  · simp at hf

theorem relayHeaders_ar_default (ct : String) (p : UpstreamResp)
    (h : p.acceptRanges = none) :
    ("Accept-Ranges", "bytes") ∈ relayHeaders ct p := by
  unfold relayHeaders
  rw [List.mem_filterMap]
  refine ⟨("Accept-Ranges", some (p.acceptRanges.getD "bytes")), by simp, ?_⟩
  rw [h]
  simp

theorem relayHeaders_mem_ar (ct : String) (p : UpstreamResp) (v : String)
    (hv : p.acceptRanges = some v) (hne : v ≠ "") :
    ("Accept-Ranges", v) ∈ relayHeaders ct p := by
  unfold relayHeaders
  rw [List.mem_filterMap]
  refine ⟨("Accept-Ranges", some (p.acceptRanges.getD "bytes")), by simp, ?_⟩
  rw [hv]
  simp [hne]

theorem relayHeaders_no_ar (ct : String) (p : UpstreamResp)
    (h : p.acceptRanges = some "") (v : String) :
    ("Accept-Ranges", v) ∉ relayHeaders ct p := by
  intro hmem
  unfold relayHeaders at hmem
  rw [List.mem_filterMap] at hmem
  obtain ⟨a, ha, hf⟩ := hmem
  simp only [List.mem_cons, List.not_mem_nil, or_false] at ha
  rcases ha with rfl | rfl | rfl | rfl | rfl
  · dsimp only at hf
    split at hf <;> simp at hf
  · dsimp only at hf
    split at hf
    · simp at hf
    · split at hf <;> simp at hf
  · dsimp only at hf
    split at hf
    · simp at hf
    · split at hf <;> simp at hf
  · rw [h] at hf
    simp at hf
  · simp at hf

/-- C8: on the relay path, `Content-Length` and `Content-Range` from the
probe are propagated to the client, `Accept-Ranges` defaults to `bytes` when
the probe omits it, and every header whose probe value is absent or empty is
omitted from the response instead of being emitted empty. -/
theorem relay_header_propagation (env : Env) (raw u : String)
    (rangeHeader : Option String) (p : UpstreamResp)
    (h1 : raw ≠ "") (h2 : pyUnquote raw = u)
    (h3 : strEndsWith "/uwu.m3u8" u = false)
    (h4 : strEndsWith ".m3u8" (strToLower u) = false)
    (h5 : probeResult env u = .ok p) :
    (∀ v, p.contentLength = some v → v ≠ "" →
      ("Content-Length", v) ∈ (proxyStream env (some raw) rangeHeader).headers)
    ∧ ((p.contentLength = none ∨ p.contentLength = some "") →
      ∀ v, ("Content-Length", v) ∉ (proxyStream env (some raw) rangeHeader).headers)
    ∧ (∀ v, p.contentRange = some v → v ≠ "" →
      ("Content-Range", v) ∈ (proxyStream env (some raw) rangeHeader).headers)
    ∧ ((p.contentRange = none ∨ p.contentRange = some "") →
      ∀ v, ("Content-Range", v) ∉ (proxyStream env (some raw) rangeHeader).headers)
    ∧ (p.acceptRanges = none →
      ("Accept-Ranges", "bytes") ∈ (proxyStream env (some raw) rangeHeader).headers)
    ∧ (∀ v, p.acceptRanges = some v → v ≠ "" →
      ("Accept-Ranges", v) ∈ (proxyStream env (some raw) rangeHeader).headers)
    ∧ (p.acceptRanges = some "" →
      ∀ v, ("Accept-Ranges", v) ∉ (proxyStream env (some raw) rangeHeader).headers) := by
  have hps : proxyStream env (some raw) rangeHeader = relayResponse env u rangeHeader := by
    have h := proxyStream_relay env raw rangeHeader h1
      (by rw [h2]; exact h3) (by rw [h2]; exact h4)
    rw [h2] at h
    exact h
  rw [hps]
  unfold relayResponse
  rw [h5]
  exact ⟨fun v hv hne => relayHeaders_mem_cl _ p v hv hne,
    fun h v => relayHeaders_no_cl _ p h v,
    fun v hv hne => relayHeaders_mem_cr _ p v hv hne,
    fun h v => relayHeaders_no_cr _ p h v,
    fun h => relayHeaders_ar_default _ p h,
    fun v hv hne => relayHeaders_mem_ar _ p v hv hne,
    fun h v => relayHeaders_no_ar _ p h v⟩

/-- C8, witness: with a probe carrying `Content-Length: 5000`, an empty
`Content-Range` and no `Accept-Ranges`, the response carries the length,
defaults `Accept-Ranges` to `bytes`, and omits `Content-Range` entirely. -/
theorem relay_header_propagation_witness :
    ("Content-Length", "5000")
      ∈ (proxyStream envC8 (some "https://media.example.com/c.mp4") none).headers
    ∧ ("Accept-Ranges", "bytes")
      ∈ (proxyStream envC8 (some "https://media.example.com/c.mp4") none).headers
    ∧ ∀ v, ("Content-Range", v)
      ∉ (proxyStream envC8 (some "https://media.example.com/c.mp4") none).headers := by
  have h := relay_header_propagation envC8 "https://media.example.com/c.mp4"
    "https://media.example.com/c.mp4" none c8Probe (by decide) (by decide) (by decide)
    (by decide) (by decide)
  exact ⟨h.1 "5000" (by decide) (by decide), h.2.2.2.2.1 (by decide),
    h.2.2.2.1 (Or.inr (by decide))⟩

/-- C10: on the relay path the client-visible status, content type and
headers are a function of the origin's replies to the HEAD probe and the
fallback GET probe, both keyed by the fixed spoofed `VIDEO_HEADERS` alone —
never by the client's `Range` — while the streamed body is a function of the
separate streaming GET carrying `withRange`; that call influences the body
only, not the status or headers. -/
theorem probe_without_range_frame (env env' : Env) (raw u : String)
    (rangeHeader : Option String)
    (h1 : raw ≠ "") (h2 : pyUnquote raw = u)
    (h3 : strEndsWith "/uwu.m3u8" u = false)
    (h4 : strEndsWith ".m3u8" (strToLower u) = false)
    (hHEAD : env.fetch .HEAD u VIDEO_HEADERS = env'.fetch .HEAD u VIDEO_HEADERS)
    (hGET : env.fetch .GET u VIDEO_HEADERS = env'.fetch .GET u VIDEO_HEADERS) :
    ((proxyStream env (some raw) rangeHeader).status
        = (proxyStream env' (some raw) rangeHeader).status
      ∧ (proxyStream env (some raw) rangeHeader).contentType
        = (proxyStream env' (some raw) rangeHeader).contentType
      ∧ (proxyStream env (some raw) rangeHeader).headers
        = (proxyStream env' (some raw) rangeHeader).headers)
    ∧ (env.fetch .GET u (withRange rangeHeader)
        = env'.fetch .GET u (withRange rangeHeader) →
      (proxyStream env (some raw) rangeHeader).body
        = (proxyStream env' (some raw) rangeHeader).body) := by
  have hpsA : proxyStream env (some raw) rangeHeader = relayResponse env u rangeHeader := by
    have h := proxyStream_relay env raw rangeHeader h1
      (by rw [h2]; exact h3) (by rw [h2]; exact h4)
    rw [h2] at h
    exact h
  have hpsB : proxyStream env' (some raw) rangeHeader
      = relayResponse env' u rangeHeader := by
    have h := proxyStream_relay env' raw rangeHeader h1
      (by rw [h2]; exact h3) (by rw [h2]; exact h4)
    rw [h2] at h
    exact h
  rw [hpsA, hpsB]
  have hprobe : probeResult env u = probeResult env' u := by
    unfold probeResult
    rw [hHEAD, hGET]
  unfold relayResponse
  rw [hprobe]
  cases hp : probeResult env' u with
  | error e => exact ⟨⟨rfl, rfl, rfl⟩, fun _ => rfl⟩
  | ok p =>
    refine ⟨⟨rfl, rfl, rfl⟩, ?_⟩
    intro hr
    show relayBody env u (withRange rangeHeader) = relayBody env' u (withRange rangeHeader)
    unfold relayBody
    rw [hr]

/-- C10, witness: two environments agreeing on the Range-less probes but
answering the ranged streaming GET differently produce the same client
status and headers. -/
theorem probe_without_range_frame_witness :
    (proxyStream envC10A (some "https://media.example.com/a.mp4") (some "bytes=0-1")).status
      = (proxyStream envC10B (some "https://media.example.com/a.mp4") (some "bytes=0-1")).status
    ∧ (proxyStream envC10A (some "https://media.example.com/a.mp4") (some "bytes=0-1")).headers
      = (proxyStream envC10B (some "https://media.example.com/a.mp4") (some "bytes=0-1")).headers := by
  have h := probe_without_range_frame envC10A envC10B "https://media.example.com/a.mp4"
    "https://media.example.com/a.mp4" (some "bytes=0-1") (by decide) (by decide)
    (by decide) (by decide) (by decide) (by decide)
  exact ⟨h.1.1, h.1.2.2⟩

/-- C1, evidence of the divergence: against an HTTP-conformant origin that
answers 206 with `Content-Range` exactly on the ranged request, the proxy's
client-visible response takes the Range-less probe's status 200 and carries
no `Content-Range` header at all, while it streams the 206 reply's partial
body — not the 206/`Content-Range` passthrough the claim demands. -/
theorem ranged_request_status_bug :
    (proxyStream envC1 (some "https://media.example.com/seg1.mp4")
      (some "bytes=1000-1999")).status = 200
    ∧ ((proxyStream envC1 (some "https://media.example.com/seg1.mp4")
        (some "bytes=1000-1999")).headers.all
          (fun kv => kv.1 != "Content-Range")) = true
    ∧ (proxyStream envC1 (some "https://media.example.com/seg1.mp4")
        (some "bytes=1000-1999")).body = "RANGEDBYTES" := by
  decide
